import Mathlib

/-
Verification of the mcp-generator extraction pipeline.

The development shallowly embeds the extraction and normalization logic of
the generator: the type normalizer (parseTypeScriptType), the name
classifier (guessDescription, categorizeFunction), the symbol filter
(isValidToolFunction), the source scanner loop of extractTools, the schema
scanner loop of extractResources, and the orchestrator's catch behaviour of
generateMCPManifest.  External collaborators (the TypeScript syntax tree
library, the SQL DDL library, the filesystem) are represented by explicit
input data: syntax facts appear as record fields mirroring the queries the
code makes, and a SQL dialect attempt is an abstract function from dialect
name to a parse outcome.  String routines follow JavaScript semantics on
the ASCII inputs the tool handles; they are implemented over character
lists so that every definition evaluates inside the kernel.
-/

namespace MCPGen

/-! ### Character and string helpers (JavaScript semantics, ASCII inputs) -/

def dquoteChar : Char := Char.ofNat 34

def cparenChar : Char := Char.ofNat 41

def lbraceChar : Char := Char.ofNat 123

def rbraceChar : Char := Char.ofNat 125

def isSpaceChar (c : Char) : Bool :=
  c == ' ' || c == '\t' || c == '\n' || c == '\r'

def startsWithChars (s pre : String) : Bool :=
  pre.toList.isPrefixOf s.toList

def endsWithChars (s post : String) : Bool :=
  post.toList.isSuffixOf s.toList

/-- JavaScript `haystack.includes(pattern)`. -/
def listContainsSub (pat hay : List Char) : Bool :=
  (List.range (hay.length + 1)).any (fun i => pat.isPrefixOf (hay.drop i))

def containsSub (s pat : String) : Bool :=
  listContainsSub pat.toList s.toList

/-- JavaScript `s.toLowerCase()` restricted to ASCII. -/
def lowerStr (s : String) : String := String.mk (s.toList.map Char.toLower)

def dropStr (s : String) (n : Nat) : String := String.mk (s.toList.drop n)

/-- JavaScript `s.trim()`. -/
def jsTrim (s : String) : String :=
  String.mk (((s.toList.dropWhile isSpaceChar).reverse.dropWhile isSpaceChar).reverse)

/-- JavaScript `Array.prototype.join` on a list of strings. -/
def joinWith (sep : String) : List String → String
  | [] => ""
  | [x] => x
  | x :: xs => x ++ sep ++ joinWith sep xs

/-! ### Type Normalizer: `parseTypeScriptType`

The source cleans the type text with the global regex replacement
`typeText.replace(re1, '')` where `re1` matches a module qualifier segment
(the word `import`, an open parenthesis, one or more non-parenthesis
characters, a close parenthesis, then a dot), then trims whitespace. -/

/-- Length of a qualifier-segment match starting at the head of `cs`,
`none` if the regex does not match at this position. -/
def importSegLen (cs : List Char) : Option Nat :=
  if cs.take 7 = "import(".toList then
    let rest := cs.drop 7
    let inner := rest.takeWhile (fun c => c != cparenChar)
    if inner.length == 0 then none
    else
      match rest.drop inner.length with
      | c1 :: c2 :: _ =>
        if c1 == cparenChar && c2 == '.' then some (9 + inner.length) else none
      | _ => none
  else none

/-- Global left-to-right scan removing every qualifier segment; the fuel is
the list length, which each step strictly decreases below. -/
def stripImportsAux : Nat → List Char → List Char
  | 0, _ => []
  | _, [] => []
  | fuel + 1, c :: rest =>
    match importSegLen (c :: rest) with
    | some n => stripImportsAux fuel ((c :: rest).drop n)
    | none => c :: stripImportsAux fuel rest

def stripImportQualifiers (s : String) : String :=
  String.mk (stripImportsAux s.toList.length s.toList)

/-- `cleanType` as computed at the top of `parseTypeScriptType`. -/
def cleanTypeOf (typeText : String) : String :=
  jsTrim (stripImportQualifiers typeText)

/-- One string-literal segment: a double quote, one or more non-quote
characters, a closing double quote.  Returns the remaining characters. -/
def parseStringLit (cs : List Char) : Option (List Char) :=
  match cs with
  | c :: rest =>
    if c == dquoteChar then
      let inner := rest.takeWhile (fun d => d != dquoteChar)
      if inner.length == 0 then none
      else
        match rest.drop inner.length with
        | d :: rem => if d == dquoteChar then some rem else none
        | [] => none
    else none
  | [] => none

/-- Tail of the anchored union regex: zero or more groups of optional
whitespace, a bar, optional whitespace and a string literal, then
end of input. -/
def enumTailAux : Nat → List Char → Bool
  | _, [] => true
  | 0, _ => false
  | fuel + 1, cs =>
    match cs.dropWhile isSpaceChar with
    | c :: cs2 =>
      if c == '|' then
        match parseStringLit (cs2.dropWhile isSpaceChar) with
        | some rem => enumTailAux fuel rem
        | none => false
      else false
    | [] => false

/-- The anchored test `cleanType.match(re2)` where `re2` recognises a union
of string literals covering the whole text. -/
def enumRegexTest (s : String) : Bool :=
  match parseStringLit s.toList with
  | some rem => enumTailAux s.toList.length rem
  | none => false

/-- The global scan `cleanType.match(re3)` collecting every quoted segment,
already stripped of its quotes (the source slices them off). -/
def quotedScanAux : Nat → List Char → List String
  | 0, _ => []
  | _, [] => []
  | fuel + 1, c :: rest =>
    if c == dquoteChar then
      let inner := rest.takeWhile (fun d => d != dquoteChar)
      if inner.length == 0 then quotedScanAux fuel rest
      else
        match rest.drop inner.length with
        | d :: rem =>
          if d == dquoteChar then String.mk inner :: quotedScanAux fuel rem
          else quotedScanAux fuel rest
        | [] => quotedScanAux fuel rest
    else quotedScanAux fuel rest

def globalQuotedMatches (s : String) : List String :=
  quotedScanAux s.toList.length s.toList

/-- The global removal `cleanType.replace(re4, '')` where `re4` matches
either a bracket pair, the text `Array<`, or a closing angle bracket. -/
def removeArrayMarkersAux : Nat → List Char → List Char
  | 0, cs => cs
  | _, [] => []
  | fuel + 1, cs =>
    if cs.take 2 = "[]".toList then removeArrayMarkersAux fuel (cs.drop 2)
    else if cs.take 6 = "Array<".toList then removeArrayMarkersAux fuel (cs.drop 6)
    else if cs.take 1 = ">".toList then removeArrayMarkersAux fuel (cs.drop 1)
    else
      match cs with
      | c :: rest => c :: removeArrayMarkersAux fuel rest
      | [] => []

def removeArrayMarkersStr (s : String) : String :=
  String.mk (removeArrayMarkersAux s.toList.length s.toList)

/-- The inner type of `Promise<...>`: the greedy group captures everything
between the opening wrapper and the last closing angle bracket, and must be
non-empty; otherwise the source falls back to the text `any`. -/
def lastGtInner (cs : List Char) : Option (List Char) :=
  let rev := cs.reverse
  let post := rev.takeWhile (fun c => c != '>')
  if post.length == rev.length then none
  else
    let innerRev := rev.drop (post.length + 1)
    if innerRev.length == 0 then none else some innerRev.reverse

def promiseInner (cleanType : String) : String :=
  match lastGtInner (cleanType.toList.drop 8) with
  | some inner => String.mk inner
  | none => "any"

/-- The fixed `typeMap` object of the source. -/
def typeMapLookup : String → Option String
  | "string" => some "string"
  | "number" => some "number"
  | "boolean" => some "boolean"
  | "Date" => some "string"
  | "any" => some "any"
  | "unknown" => some "any"
  | "object" => some "object"
  | "void" => some "null"
  | "undefined" => some "null"
  | "null" => some "null"
  | _ => none

/-- Result record of `parseTypeScriptType`; the source field `enum` is
rendered `enumValues` here. -/
structure TypeInfo where
  type : String
  description : Option String
  enumValues : Option (List String)
deriving DecidableEq, Repr

/-- `parseTypeScriptType` as in the module variant (src/index.js and the
matching TypeScript source), which has no guard for empty input. -/
def parseTypeScriptType (typeText : String) : TypeInfo :=
  if enumRegexTest (cleanTypeOf typeText) then
    { type := "string"
      enumValues := some (globalQuotedMatches (cleanTypeOf typeText))
      description := some ("One of: " ++ joinWith ", " (globalQuotedMatches (cleanTypeOf typeText))) }
  else if containsSub (cleanTypeOf typeText) "[]" || startsWithChars (cleanTypeOf typeText) "Array<" then
    { type := "array"
      description := some ("Array of " ++ removeArrayMarkersStr (cleanTypeOf typeText))
      enumValues := none }
  else if startsWithChars (cleanTypeOf typeText) "Promise<" then
    { type := "promise"
      description := some ("Promise resolving to " ++ promiseInner (cleanTypeOf typeText))
      enumValues := none }
  else if (cleanTypeOf typeText).toList.contains lbraceChar && (cleanTypeOf typeText).toList.contains rbraceChar then
    { type := "object", description := some "Complex object type", enumValues := none }
  else
    { type := (typeMapLookup (cleanTypeOf typeText)).getD (cleanTypeOf typeText)
      description :=
        if cleanTypeOf typeText ≠ (typeMapLookup (cleanTypeOf typeText)).getD (cleanTypeOf typeText)
        then some (cleanTypeOf typeText) else none
      enumValues := none }

/-- `parseTypeScriptType` as in the CLI variant, whose body is identical to
the module variant except for the leading guard returning kind `any` on
falsy (empty) input. -/
def parseTypeScriptTypeCli (typeText : String) : TypeInfo :=
  if typeText = "" then { type := "any", description := none, enumValues := none }
  else parseTypeScriptType typeText

/-! ### Name Classifier: `guessDescription` and `categorizeFunction`

Each name pattern is an anchored case-insensitive alternation; none of the
alternatives within one pattern is a proper starting segment of another, so
the matched alternative is the unique one whose letters begin the name. -/

/-- One record per parameter of the scanner's `parameters` object. -/
structure ParamSchema where
  type : String
  required : Bool
  description : Option String
  enumValues : Option (List String)
deriving DecidableEq, Repr

def fetchAlternatives : List String := ["get", "fetch", "find", "retrieve", "load", "query"]

def createAlternatives : List String := ["create", "add", "insert", "post"]

def updateAlternatives : List String := ["update", "edit", "modify", "patch", "put"]

def deleteAlternatives : List String := ["delete", "remove", "destroy"]

def listAlternatives : List String := ["list", "getAll"]

def searchAlternatives : List String := ["search", "filter"]

def validateAlternatives : List String := ["validate", "check", "verify"]

def authAlternatives : List String := ["auth", "login", "logout", "register"]

/-- The alternative of the anchored case-insensitive pattern that matches at
the start of `name`, if any. -/
def findMatchedStart (alternatives : List String) (name : String) : Option String :=
  alternatives.find? (fun p => startsWithChars (lowerStr name) (lowerStr p))

/-- `hasId` of `guessDescription`: some parameter key whose lower-cased text
includes the letters `id`. -/
def hasIdKey (params : List (String × ParamSchema)) : Bool :=
  (params.map Prod.fst).any (fun p => containsSub (lowerStr p) "id")

/-- `guessDescription(name, params)`: the first matching name family wins;
the template suffix is the name with the matched alternative stripped and
the remainder lower-cased as a whole. -/
def guessDescription (name : String) (params : List (String × ParamSchema)) : String :=
  match findMatchedStart fetchAlternatives name with
  | some p =>
    if hasIdKey params then "Fetch a specific " ++ lowerStr (dropStr name p.length) ++ " by ID"
    else "Fetch " ++ lowerStr (dropStr name p.length) ++ " data"
  | none =>
  match findMatchedStart createAlternatives name with
  | some p => "Create a new " ++ lowerStr (dropStr name p.length) ++ " record"
  | none =>
  match findMatchedStart updateAlternatives name with
  | some p => "Update an existing " ++ lowerStr (dropStr name p.length) ++ " record"
  | none =>
  match findMatchedStart deleteAlternatives name with
  | some p => "Delete a " ++ lowerStr (dropStr name p.length) ++ " record"
  | none =>
  match findMatchedStart listAlternatives name with
  | some p => "List all " ++ lowerStr (dropStr name p.length) ++ " records"
  | none =>
  match findMatchedStart searchAlternatives name with
  | some p => "Search and filter " ++ lowerStr (dropStr name p.length) ++ " records"
  | none =>
  match findMatchedStart validateAlternatives name with
  | some p => "Validate " ++ lowerStr (dropStr name p.length) ++ " data"
  | none =>
    "Function: " ++ name ++
      (if (params.map Prod.fst).length > 0
       then " (" ++ toString (params.map Prod.fst).length ++ " parameters)"
       else "")

/-- `categorizeFunction(name, filePath)`: path substring checks first, then
name families, else `general`. -/
def categorizeFunction (name filePath : String) : String :=
  if containsSub filePath "/api/" || containsSub filePath "/routes/" then "api"
  else if containsSub filePath "/utils/" || containsSub filePath "/helpers/" then "utility"
  else if containsSub filePath "/services/" then "service"
  else if containsSub filePath "/models/" then "model"
  else if containsSub filePath "/controllers/" then "controller"
  else if containsSub filePath "/middleware/" then "middleware"
  else if (findMatchedStart fetchAlternatives name).isSome then "data-access"
  else if (findMatchedStart createAlternatives name).isSome then "data-creation"
  else if (findMatchedStart updateAlternatives name).isSome then "data-modification"
  else if (findMatchedStart deleteAlternatives name).isSome then "data-deletion"
  else if (findMatchedStart validateAlternatives name).isSome then "validation"
  else if (findMatchedStart authAlternatives name).isSome then "authentication"
  else "general"

/-! ### Symbol Filter: `isValidToolFunction` -/

/-- The anchored character-class test for an ASCII capital first letter. -/
def startsUpperAZ (s : String) : Bool :=
  match s.toList with
  | [] => false
  | c :: _ => decide (65 ≤ c.toNat) && decide (c.toNat ≤ 90)

/-- `isValidToolFunction(name, node)`; the node is consulted only for its
source file path, passed here directly. -/
def isValidToolFunction (name filePath : String) : Bool :=
  if startsWithChars name "_" || startsWithChars name "#" then false
  else if (findMatchedStart ["test", "spec", "mock", "stub"] name).isSome then false
  else if (findMatchedStart ["helper", "util", "internal", "private"] name).isSome then false
  else if (findMatchedStart ["constructor", "init"] name).isSome then false
  else if startsUpperAZ name && containsSub filePath "component" then false
  else true

/-! ### Source Scanner data model

The candidate symbols of one file, as delivered by the syntax library:
function declarations, variable declarations whose initializer is a
function or arrow function, and methods of exported classes that carry the
public modifier or do not carry the private modifier.  Record fields state
the answers the library gives to the queries the scanner makes. -/

inductive SyntaxKind where
  | ExportKeyword
  | PublicKeyword
  | PrivateKeyword
  | StaticKeyword
  | AsyncKeyword
deriving DecidableEq, Repr

structure ParamNode where
  name : String
  typeText : String
  hasQuestionToken : Bool
deriving DecidableEq, Repr

structure FuncDecl where
  name : Option String
  isExported : Bool
  params : List ParamNode
  returnTypeText : String
  jsDocComment : Option String
  jsDocExamples : List String
deriving DecidableEq, Repr

structure VarDecl where
  name : String
  initializerIsFunction : Bool
  stmtExported : Bool
deriving DecidableEq, Repr

structure MethodDecl where
  name : String
  modifiers : List SyntaxKind
  params : List ParamNode
  returnTypeText : String
  jsDocComment : Option String
  jsDocExamples : List String
deriving DecidableEq, Repr

structure ClassDecl where
  isExported : Bool
  methods : List MethodDecl
deriving DecidableEq, Repr

structure SourceFileAst where
  filePath : String
  functions : List FuncDecl
  variableDeclarations : List VarDecl
  classes : List ClassDecl
deriving DecidableEq, Repr

/-- One entry of the scanner's `allFunctions` union. -/
inductive FnNode where
  | funcDecl (d : FuncDecl)
  | varBinding (d : VarDecl)
  | classMethod (d : MethodDecl)
deriving DecidableEq, Repr

/-- `fn.getName() ?? "[anonymous]"`. -/
def FnNode.resolvedName : FnNode → String
  | .funcDecl d => d.name.getD "[anonymous]"
  | .varBinding d => d.name
  | .classMethod d => d.name

/-- The export-status determination.  Function declarations and variable
declarations expose the explicit exported query of the syntax library, so
the first duck-typed branch of the source answers for them (for a bound
variable the query reflects the enclosing statement).  A method exposes no
such query and falls to the second branch, which asks whether the method
itself carries the export modifier. -/
def FnNode.determineExported : FnNode → Bool
  | .funcDecl d => d.isExported
  | .varBinding d => d.stmtExported
  | .classMethod d => d.modifiers.contains SyntaxKind.ExportKeyword

/-- Parameter list: a variable declaration exposes no parameter query, so
the source leaves its list empty. -/
def FnNode.paramNodes : FnNode → List ParamNode
  | .funcDecl d => d.params
  | .varBinding _ => []
  | .classMethod d => d.params

/-- Return type text: a variable declaration exposes no return-type query,
so the source keeps the default kind `any`. -/
def FnNode.returnTypeTextOpt : FnNode → Option String
  | .funcDecl d => some d.returnTypeText
  | .varBinding _ => none
  | .classMethod d => some d.returnTypeText

/-- Leading documentation comment of the first attached doc block, when the
node kind supports the query. -/
def FnNode.jsDocCommentOpt : FnNode → Option String
  | .funcDecl d => d.jsDocComment
  | .varBinding _ => none
  | .classMethod d => d.jsDocComment

def FnNode.exampleTags : FnNode → List String
  | .funcDecl d => d.jsDocExamples
  | .varBinding _ => []
  | .classMethod d => d.jsDocExamples

/-- The emitted Tool Descriptor.  `examples` is kept as a list; the source
omits the field from the record when the list is empty. -/
structure Tool where
  name : String
  description : String
  parameters : List (String × ParamSchema)
  returnType : String
  file : String
  examples : List String
  category : String
deriving DecidableEq, Repr

def buildParams (ps : List ParamNode) : List (String × ParamSchema) :=
  ps.map (fun p =>
    let ti := parseTypeScriptType p.typeText
    (p.name,
     { type := ti.type
       required := !p.hasQuestionToken
       description := ti.description
       enumValues := ti.enumValues }))

/-- Description choice: a non-empty documentation comment overrides the
name-derived default (an empty string is falsy in the source's test). -/
def toolDescription (name : String) (parameters : List (String × ParamSchema))
    (jsDocComment : Option String) : String :=
  match jsDocComment with
  | some c => if c = "" then guessDescription name parameters else c
  | none => guessDescription name parameters

def buildTool (filePath name : String) (fn : FnNode) : Tool :=
  let parameters := buildParams fn.paramNodes
  { name := name
    description := toolDescription name parameters fn.jsDocCommentOpt
    parameters := parameters
    returnType :=
      match fn.returnTypeTextOpt with
      | some t => (parseTypeScriptType t).type
      | none => "any"
    file := filePath
    examples := fn.exampleTags
    category := categorizeFunction name filePath }

/-- The `allFunctions` union of one file, in source order: declarations,
then function-valued bindings, then the methods of exported classes that
are public or not marked private. -/
def sourceFileCandidates (sf : SourceFileAst) : List FnNode :=
  (sf.functions.map FnNode.funcDecl)
  ++ ((sf.variableDeclarations.filter (fun v => v.initializerIsFunction)).map FnNode.varBinding)
  ++ (((sf.classes.filter (fun c => c.isExported)).flatMap
        (fun c => c.methods.filter
          (fun m => m.modifiers.contains SyntaxKind.PublicKeyword
                    || !(m.modifiers.contains SyntaxKind.PrivateKeyword)))).map FnNode.classMethod)

/-- The candidate loop of `extractTools` for one file: skip on filter
rejection, skip if not exported, skip if the key `filePath:name` is already
in the processed set, else emit and record the key. -/
def processCandidates (fp : String) : List FnNode → List String → List Tool × List String
  | [], seen => ([], seen)
  | fn :: rest, seen =>
    if isValidToolFunction (FnNode.resolvedName fn) fp = false then
      processCandidates fp rest seen
    else if FnNode.determineExported fn = false then
      processCandidates fp rest seen
    else if (fp ++ ":" ++ FnNode.resolvedName fn) ∈ seen then
      processCandidates fp rest seen
    else
      let r := processCandidates fp rest ((fp ++ ":" ++ FnNode.resolvedName fn) :: seen)
      (buildTool fp (FnNode.resolvedName fn) fn :: r.1, r.2)

/-- The file loop of `extractTools`, threading the shared processed set. -/
def extractToolsAux : List SourceFileAst → List String → List Tool
  | [], _ => []
  | f :: fs, seen =>
    let r := processCandidates f.filePath (sourceFileCandidates f) seen
    r.1 ++ extractToolsAux fs r.2

/-- `extractTools` over the discovered files, with a fresh processed set. -/
def extractTools (files : List SourceFileAst) : List Tool :=
  extractToolsAux files []

/-- The deduplication key of an emitted descriptor. -/
def toolKey (t : Tool) : String := t.file ++ ":" ++ t.name

/-! ### Schema Scanner data model

The DDL library is external; a parse attempt for one file is an abstract
function from dialect name to either an error or the table list flattened
from the parse results.  The table records mirror the fields the scanner
reads, with `Option` where the source guards against an absent field — and
crucially no `Option` guard where the module variant reads
`col.type.datatype` unconditionally. -/

structure ColumnType where
  datatype : String
  length : Option Nat
deriving DecidableEq, Repr

structure ColumnOptions where
  notNull : Bool
  primaryKey : Bool
  autoIncrement : Bool
  defaultValue : Option String
deriving DecidableEq, Repr

structure SqlColumn where
  name : String
  type : Option ColumnType
  options : Option ColumnOptions
deriving DecidableEq, Repr

structure SqlIndex where
  name : Option String
  columns : Option (List String)
deriving DecidableEq, Repr

structure FkRef where
  table : String
  column : String
deriving DecidableEq, Repr

structure ForeignKey where
  column : String
  references : Option FkRef
deriving DecidableEq, Repr

/-- A table of the flattened parse results; a falsy (absent or empty) name
is modelled as the empty string, which makes the scanner skip the table. -/
structure SqlTable where
  name : String
  columns : Option (List SqlColumn)
  indexes : Option (List SqlIndex)
  foreignKeys : Option (List ForeignKey)
deriving DecidableEq, Repr

structure ColumnSchema where
  type : String
  nullable : Bool
  primaryKey : Bool
  autoIncrement : Bool
  defaultValue : Option String
  length : Option Nat
deriving DecidableEq, Repr

structure FkOut where
  column : String
  referencesTable : Option String
  referencesColumn : Option String
deriving DecidableEq, Repr

/-- The emitted Resource Descriptor (the filesystem timestamp of the
metadata block is external state and not modelled). -/
structure Resource where
  name : String
  type : String
  columns : List (String × ColumnSchema)
  indexes : List String
  foreignKeys : List FkOut
  file : String
  dialect : String
deriving DecidableEq, Repr

def undefinedTypeErr : String := "TypeError: cannot read datatype of undefined"

def mkColumnSchema (ty : ColumnType) (opts : Option ColumnOptions) : ColumnSchema :=
  { type := ty.datatype
    nullable := !((opts.map (fun o => o.notNull)).getD false)
    primaryKey := (opts.map (fun o => o.primaryKey)).getD false
    autoIncrement := (opts.map (fun o => o.autoIncrement)).getD false
    defaultValue := opts.bind (fun o => o.defaultValue)
    length :=
      match ty.length with
      | some n => if 0 < n then some n else none
      | none => none }

/-- The column loop of the module variant: `col.type.datatype` is read with
no guard, so a column whose `type` field is absent raises, aborting the
table mid-extraction. -/
def buildColumnsE : List SqlColumn → Except String (List (String × ColumnSchema))
  | [] => .ok []
  | c :: cs =>
    match c.type with
    | none => .error undefinedTypeErr
    | some ty =>
      match buildColumnsE cs with
      | .error e => .error e
      | .ok rest => .ok ((c.name, mkColumnSchema ty c.options) :: rest)

/-- Synthesized index name when the source grammar gives none (an absent
column list renders as the text `undefined` inside the template, as in the
source). -/
def synthIndexName (tableName : String) (idx : SqlIndex) : String :=
  tableName ++ "_" ++
    (match idx.columns with
     | some cols => joinWith "_" cols
     | none => "undefined") ++ "_idx"

def buildIndexName (tableName : String) (idx : SqlIndex) : String :=
  match idx.name with
  | some n => if n = "" then synthIndexName tableName idx else n
  | none => synthIndexName tableName idx

def buildFK (fk : ForeignKey) : FkOut :=
  { column := fk.column
    referencesTable := fk.references.map (fun r => r.table)
    referencesColumn := fk.references.map (fun r => r.column) }

/-- One table's descriptor; fails exactly when the column loop raises. -/
def buildResource (file dialect : String) (t : SqlTable) : Except String Resource :=
  match buildColumnsE (t.columns.getD []) with
  | .error e => .error e
  | .ok cols =>
    .ok { name := t.name
          type := "sql_table"
          columns := cols
          indexes := (t.indexes.getD []).map (buildIndexName t.name)
          foreignKeys := (t.foreignKeys.getD []).map buildFK
          file := file
          dialect := dialect }

/-- The table loop of one dialect attempt: each completed table is pushed
onto the outer accumulator before the next table is processed, so a raise
keeps the already-pushed descriptors and stops the loop with the error. -/
def processTables (file dialect : String) : List SqlTable → List Resource × Option String
  | [] => ([], none)
  | t :: ts =>
    if t.name = "" then processTables file dialect ts
    else
      match buildResource file dialect t with
      | .error e => ([], some e)
      | .ok r =>
        let rest := processTables file dialect ts
        (r :: rest.1, rest.2)

/-- The fixed dialect priority order. -/
def dialects : List String := ["mysql", "postgresql", "sqlite", "mssql"]

/-- The dialect loop for one file.  A parse failure moves to the next
dialect; a raise during table extraction keeps the descriptors already
pushed and also moves on; only a fully successful attempt sets the parsed
flag and breaks.  The boolean of the result is the `parsed` flag. -/
def tryDialectsAux (attempt : String → Except String (List SqlTable)) (file : String) :
    List String → List Resource × Bool
  | [] => ([], false)
  | d :: ds =>
    match attempt d with
    | .error _ => tryDialectsAux attempt file ds
    | .ok tables =>
      match (processTables file d tables).2 with
      | some _ =>
        let rest := tryDialectsAux attempt file ds
        ((processTables file d tables).1 ++ rest.1, rest.2)
      | none => ((processTables file d tables).1, true)

/-- `extractResources` restricted to one file, over an abstract per-dialect
parse outcome. -/
def extractResourcesFile (attempt : String → Except String (List SqlTable))
    (file : String) : List Resource × Bool :=
  tryDialectsAux attempt file dialects

/-! ### Pipeline Orchestrator

The CLI variant runs the two scanners jointly and attaches a catch to each
that substitutes an empty list for that scanner's output, so a scanner
rejection (for instance a constructor failure) cannot abort the sibling.
A scanner run is modelled as an `Except`: an error is a rejection. -/

def scannerCatch {α : Type} : Except String (List α) → List α
  | .ok l => l
  | .error _ => []

/-- The two descriptor lists assembled by `generateMCPManifest`. -/
def generateMCPManifestLists (toolsRun : Except String (List Tool))
    (resourcesRun : Except String (List Resource)) : List Tool × List Resource :=
  (scannerCatch toolsRun, scannerCatch resourcesRun)

/-! ### Spec-side predicate for the array rule

Modelled from the spec's words, for comparison with the code: the text
"ends in an array marker (`[]`) or is a generic array wrapper". -/

def specArrayCondition (c : String) : Bool :=
  endsWithChars c "[]" || (startsWithChars c "Array<" && endsWithChars c ">")

/-! ### Concrete inputs used by the claim theorems and witnesses -/

def demoParamSchema : ParamSchema :=
  { type := "string", required := true, description := none, enumValues := none }

def dupFirstFn : FuncDecl :=
  { name := some "getUser", isExported := true, params := []
    returnTypeText := "void", jsDocComment := some "first declaration doc"
    jsDocExamples := [] }

def dupSecondFn : FuncDecl :=
  { name := some "getUser", isExported := true, params := []
    returnTypeText := "void", jsDocComment := some "second declaration doc"
    jsDocExamples := [] }

/-- A file holding two identically named exported functions. -/
def dupDemoFile : SourceFileAst :=
  { filePath := "a.ts", functions := [dupFirstFn, dupSecondFn]
    variableDeclarations := [], classes := [] }

/-- A public method of an exported class, with an eligible name. -/
def demoMethod : MethodDecl :=
  { name := "getUserById"
    modifiers := [SyntaxKind.PublicKeyword]
    params := [{ name := "id", typeText := "string", hasQuestionToken := false }]
    returnTypeText := "Promise<User>"
    jsDocComment := none
    jsDocExamples := [] }

def demoClassFile : SourceFileAst :=
  { filePath := "src/services/userService.ts", functions := []
    variableDeclarations := []
    classes := [{ isExported := true, methods := [demoMethod] }] }

def c8DemoFn : FuncDecl :=
  { name := some "createOrder", isExported := true, params := []
    returnTypeText := "void", jsDocComment := none, jsDocExamples := [] }

def c8DemoFile : SourceFileAst :=
  { filePath := "src/orders.ts", functions := [c8DemoFn]
    variableDeclarations := [], classes := [] }

/-- A table whose extraction completes. -/
def usersTable : SqlTable :=
  { name := "users"
    columns := some [{ name := "id"
                       type := some { datatype := "INT", length := none }
                       options := some { notNull := true, primaryKey := true
                                         autoIncrement := true, defaultValue := none } }]
    indexes := some []
    foreignKeys := some [] }

/-- A table whose first column lacks its `type` field, so the unguarded
`datatype` read of the module variant raises mid-extraction. -/
def badTable : SqlTable :=
  { name := "orders"
    columns := some [{ name := "total", type := none, options := none }]
    indexes := none
    foreignKeys := none }

/-- The descriptor the scanner emits for `usersTable` under a dialect. -/
def usersResource (dialect : String) : Resource :=
  { name := "users", type := "sql_table"
    columns := [("id", { type := "INT", nullable := false, primaryKey := true
                         autoIncrement := true, defaultValue := none, length := none })]
    indexes := [], foreignKeys := [], file := "schema.sql", dialect := dialect }

/-- A file whose text parses under the mysql grammar only. -/
def demoAttemptMysql : String → Except String (List SqlTable) :=
  fun d => if d = "mysql" then Except.ok [usersTable] else Except.error "parse error"

/-- A file that parses under mysql with a raising second table, and also
parses cleanly under postgresql. -/
def demoDupAttempt : String → Except String (List SqlTable) :=
  fun d =>
    if d = "mysql" then Except.ok [usersTable, badTable]
    else if d = "postgresql" then Except.ok [usersTable]
    else Except.error "parse error"

/-! ### Invariants of the source-scanner loop -/

theorem toolKey_buildTool (fp n : String) (fn : FnNode) :
    toolKey (buildTool fp n fn) = fp ++ ":" ++ n := rfl

theorem processCandidates_inv (fp : String) (cs : List FnNode) : ∀ (seen : List String),
    ((processCandidates fp cs seen).1.map toolKey).Nodup
    ∧ (∀ k ∈ (processCandidates fp cs seen).1.map toolKey, k ∉ seen)
    ∧ (∀ k, k ∈ (processCandidates fp cs seen).2
        ↔ k ∈ seen ∨ k ∈ (processCandidates fp cs seen).1.map toolKey) := by
  induction cs with
  | nil => intro seen; simp [processCandidates]
  | cons fn rest ih =>
    intro seen
    by_cases h1 : isValidToolFunction (FnNode.resolvedName fn) fp = false
    · simpa only [processCandidates, if_pos h1] using ih seen
    · by_cases h2 : FnNode.determineExported fn = false
      · simpa only [processCandidates, if_neg h1, if_pos h2] using ih seen
      · by_cases h3 : (fp ++ ":" ++ FnNode.resolvedName fn) ∈ seen
        · simpa only [processCandidates, if_neg h1, if_neg h2, if_pos h3] using ih seen
        · obtain ⟨ihN, ihS, ihI⟩ := ih ((fp ++ ":" ++ FnNode.resolvedName fn) :: seen)
          simp only [processCandidates, if_neg h1, if_neg h2, if_neg h3, List.map_cons,
            toolKey_buildTool]
          refine ⟨?_, ?_, ?_⟩
          · refine List.nodup_cons.mpr ⟨fun hmem => ?_, ihN⟩
            exact (ihS _ hmem) (List.mem_cons_self _ _)
          · intro k hk
            rcases List.mem_cons.mp hk with hk | hk
            · exact hk ▸ h3
            · intro hseen
              exact (ihS k hk) (List.mem_cons_of_mem _ hseen)
          · intro k
            rw [ihI k]
            simp only [List.mem_cons]
            tauto

theorem extractToolsAux_inv : ∀ (fs : List SourceFileAst) (seen : List String),
    ((extractToolsAux fs seen).map toolKey).Nodup
    ∧ ∀ k ∈ (extractToolsAux fs seen).map toolKey, k ∉ seen := by
  intro fs
  induction fs with
  | nil => intro seen; simp [extractToolsAux]
  | cons f fs ih =>
    intro seen
    obtain ⟨pN, pS, pI⟩ := processCandidates_inv f.filePath (sourceFileCandidates f) seen
    obtain ⟨iN, iS⟩ := ih ((processCandidates f.filePath (sourceFileCandidates f) seen).2)
    constructor
    · simp only [extractToolsAux, List.map_append]
      refine List.nodup_append.mpr ⟨pN, iN, ?_⟩
      intro k hk hk2
      exact (iS k hk2) ((pI k).mpr (Or.inr hk))
    · simp only [extractToolsAux, List.map_append, List.mem_append]
      rintro k (hk | hk)
      · exact pS k hk
      · intro hseen
        exact (iS k hk) ((pI k).mpr (Or.inl hseen))

theorem processCandidates_valid (fp : String) (cs : List FnNode) :
    ∀ (seen : List String) (t : Tool),
    t ∈ (processCandidates fp cs seen).1 → isValidToolFunction t.name t.file = true := by
  induction cs with
  | nil => intro seen t h; simp [processCandidates] at h
  | cons fn rest ih =>
    intro seen t h
    by_cases h1 : isValidToolFunction (FnNode.resolvedName fn) fp = false
    · exact ih seen t (by simpa only [processCandidates, if_pos h1] using h)
    · by_cases h2 : FnNode.determineExported fn = false
      · exact ih seen t (by simpa only [processCandidates, if_neg h1, if_pos h2] using h)
      · by_cases h3 : (fp ++ ":" ++ FnNode.resolvedName fn) ∈ seen
        · exact ih seen t (by simpa only [processCandidates, if_neg h1, if_neg h2, if_pos h3] using h)
        · simp only [processCandidates, if_neg h1, if_neg h2, if_neg h3, List.mem_cons] at h
          rcases h with h | h
          · have h1' : isValidToolFunction (FnNode.resolvedName fn) fp = true := by
              revert h1; cases isValidToolFunction (FnNode.resolvedName fn) fp <;> simp
            exact h ▸ h1'
          · exact ih _ t h

theorem extractToolsAux_valid : ∀ (fs : List SourceFileAst) (seen : List String) (t : Tool),
    t ∈ extractToolsAux fs seen → isValidToolFunction t.name t.file = true := by
  intro fs
  induction fs with
  | nil => intro seen t h; simp [extractToolsAux] at h
  | cons f fs ih =>
    intro seen t h
    simp only [extractToolsAux, List.mem_append] at h
    rcases h with h | h
    · exact processCandidates_valid f.filePath (sourceFileCandidates f) seen t h
    · exact ih _ t h

/-! ### Claim theorems -/

/-- Claim C1: within one run of the source scanner the pair
(sourceFile, name) is unique across the emitted descriptor list; a file
holding two identically named exported functions yields exactly one
descriptor, and the first occurrence in discovery order is the one kept
(its documentation comment, not the second one's, becomes the
description). -/
theorem C1_dedup_unique :
    (∀ files : List SourceFileAst,
        (extractTools files).Pairwise (fun a b => ¬(a.file = b.file ∧ a.name = b.name)))
    ∧ extractTools [dupDemoFile] = [buildTool "a.ts" "getUser" (FnNode.funcDecl dupFirstFn)]
    ∧ (buildTool "a.ts" "getUser" (FnNode.funcDecl dupFirstFn)).description
        = "first declaration doc" := by
  refine ⟨?_, by decide, by decide⟩
  intro files
  have h : ((extractTools files).map toolKey).Pairwise (fun a b => a ≠ b) :=
    (extractToolsAux_inv files []).1
  have h2 : (extractTools files).Pairwise (fun a b => toolKey a ≠ toolKey b) :=
    List.pairwise_map.mp h
  refine h2.imp ?_
  intro a b hk hab
  exact hk (by rw [toolKey, toolKey, hab.1, hab.2])

/-- Claim C2: the orchestrator attaches a catch to each scanner run that
substitutes an empty list for a rejected scanner, leaving the sibling
scanner's descriptor list untouched. -/
theorem C2_orchestrator_catch :
    (∀ (e : String) (rs : List Resource),
        generateMCPManifestLists (Except.error e) (Except.ok rs) = ([], rs))
    ∧ (∀ (e : String) (ts : List Tool),
        generateMCPManifestLists (Except.ok ts) (Except.error e) = (ts, [])) :=
  ⟨fun _ _ => rfl, fun _ _ => rfl⟩

/-- Claim C3: a public method of an exported class with an eligible name is
among the scanner's candidates and passes the symbol filter, yet the
export-status determination answers false for every class method (a method
exposes no exported query and never carries the export modifier), so the
scanner emits no descriptor for it — contradicting the claim and the
stated intent of the extraction step. -/
theorem C3_class_method_never_extracted :
    sourceFileCandidates demoClassFile = [FnNode.classMethod demoMethod]
    ∧ isValidToolFunction (FnNode.resolvedName (FnNode.classMethod demoMethod))
        demoClassFile.filePath = true
    ∧ FnNode.determineExported (FnNode.classMethod demoMethod) = false
    ∧ extractTools [demoClassFile] = [] :=
  ⟨by decide, by decide, by decide, by decide⟩

/-- Claim C8: a symbol named `_helper`, `#priv`, `testFoo`, `mockBar` or
`ConstructorInit` is never present in the scanner's output regardless of
export status, and the rejecting filter check fires independently of the
file path, with no override. -/
theorem C8_filter_names_never_emitted :
    (∀ (files : List SourceFileAst) (t : Tool), t ∈ extractTools files →
        t.name ∉ (["_helper", "#priv", "testFoo", "mockBar", "ConstructorInit"] : List String))
    ∧ (∀ p : String,
        isValidToolFunction "_helper" p = false
        ∧ isValidToolFunction "#priv" p = false
        ∧ isValidToolFunction "testFoo" p = false
        ∧ isValidToolFunction "mockBar" p = false
        ∧ isValidToolFunction "ConstructorInit" p = false) := by
  constructor
  · intro files t hmem hbad
    have hv := extractToolsAux_valid files [] t hmem
    simp only [List.mem_cons, List.not_mem_nil, or_false] at hbad
    rcases hbad with h | h | h | h | h <;> rw [h] at hv <;> exact Bool.noConfusion hv
  · intro p
    exact ⟨rfl, rfl, rfl, rfl, rfl⟩

/-- Witness for C8: a concrete run emits a descriptor, and its name avoids
the five filtered names. -/
theorem C8_filter_witness :
    buildTool "src/orders.ts" "createOrder" (FnNode.funcDecl c8DemoFn) ∈ extractTools [c8DemoFile]
    ∧ (buildTool "src/orders.ts" "createOrder" (FnNode.funcDecl c8DemoFn)).name
        ∉ (["_helper", "#priv", "testFoo", "mockBar", "ConstructorInit"] : List String) :=
  ⟨by decide, C8_filter_names_never_emitted.1 [c8DemoFile] _ (by decide)⟩

/-- Claim C4 counterexample: the scanner lower-cases the whole remainder
after stripping the matched alternative, so the name `getUserById` with an
id-like parameter yields `Fetch a specific userbyid by ID`, which does not
start with the claimed text `Fetch a specific user by ID`. -/
theorem C4_counterexample :
    guessDescription "getUserById" [("id", demoParamSchema)] = "Fetch a specific userbyid by ID"
    ∧ startsWithChars (guessDescription "getUserById" [("id", demoParamSchema)])
        "Fetch a specific user by ID" = false :=
  ⟨by decide, by decide⟩

/-- Claim C4 as amended: for a name matching the fetch-family pattern and
an id-like parameter present, the result is `Fetch a specific SUFFIX by ID`
where SUFFIX is the name with the matched alternative stripped and the
remainder lower-cased; at `getUserById` the suffix is `userbyid`. -/
theorem C4_describe_fetch_by_id (name : String) (params : List (String × ParamSchema))
    (p : String)
    (h1 : findMatchedStart fetchAlternatives name = some p)
    (h2 : hasIdKey params = true) :
    guessDescription name params
      = "Fetch a specific " ++ lowerStr (dropStr name p.length) ++ " by ID" := by
  unfold guessDescription
  rw [h1]
  simp [h2]

/-- Witness for the amended C4 at the concrete example. -/
theorem C4_describe_fetch_witness :
    findMatchedStart fetchAlternatives "getUserById" = some "get"
    ∧ hasIdKey [("id", demoParamSchema)] = true
    ∧ guessDescription "getUserById" [("id", demoParamSchema)]
        = "Fetch a specific " ++ lowerStr (dropStr "getUserById" ("get" : String).length) ++ " by ID" :=
  ⟨by decide, by decide,
    C4_describe_fetch_by_id "getUserById" [("id", demoParamSchema)] "get" (by decide) (by decide)⟩

/-! ### Schema-scanner lemmas -/

theorem buildResource_dialect (file d : String) (t : SqlTable) (r : Resource)
    (h : buildResource file d t = Except.ok r) : r.dialect = d := by
  unfold buildResource at h
  cases hb : buildColumnsE (t.columns.getD []) with
  | error e => rw [hb] at h; exact Except.noConfusion h
  | ok cols =>
    rw [hb] at h
    cases h
    rfl

theorem processTables_dialect (file d : String) : ∀ (ts : List SqlTable) (r : Resource),
    r ∈ (processTables file d ts).1 → r.dialect = d := by
  intro ts
  induction ts with
  | nil => intro r h; simp [processTables] at h
  | cons t ts ih =>
    intro r h
    by_cases h1 : t.name = ""
    · exact ih r (by simpa only [processTables, if_pos h1] using h)
    · simp only [processTables, if_neg h1] at h
      cases hb : buildResource file d t with
      | error e => rw [hb] at h; simp at h
      | ok r0 =>
        rw [hb] at h
        simp only [List.mem_cons] at h
        rcases h with h | h
        · exact h ▸ buildResource_dialect file d t r0 hb
        · exact ih r h

/-- Claim C5: when the mysql attempt parses and its table extraction
completes without error, the scanner emits exactly the mysql-tagged
descriptors for the file, sets the parsed flag, and the outcome is
independent of every later dialect (the conclusion mentions only the
mysql attempt's data). -/
theorem C5_first_dialect_wins (attempt : String → Except String (List SqlTable))
    (file : String) (ts : List SqlTable) (rs : List Resource)
    (h1 : attempt "mysql" = Except.ok ts)
    (h2 : processTables file "mysql" ts = (rs, none)) :
    extractResourcesFile attempt file = (rs, true) ∧ ∀ r ∈ rs, r.dialect = "mysql" := by
  constructor
  · unfold extractResourcesFile dialects
    simp only [tryDialectsAux, h1, h2]
  · intro r hr
    have hd := processTables_dialect file "mysql" ts r
    rw [h2] at hd
    exact hd hr

/-- Witness for C5 at a concrete single-table mysql-only file. -/
theorem C5_first_dialect_witness :
    extractResourcesFile demoAttemptMysql "schema.sql" = ([usersResource "mysql"], true)
    ∧ ∀ r ∈ [usersResource "mysql"], r.dialect = "mysql" :=
  C5_first_dialect_wins demoAttemptMysql "schema.sql" [usersTable] [usersResource "mysql"]
    rfl (by decide)

/-- Claim C10: a dialect attempt that raises after some descriptors of the
file were already pushed keeps those descriptors and moves on to the next
dialect, so one table can appear twice under two different dialect tags. -/
theorem C10_partial_retention :
    (∀ (attempt : String → Except String (List SqlTable)) (file : String)
        (ts1 : List SqlTable) (rs1 : List Resource) (e : String)
        (ts2 : List SqlTable) (rs2 : List Resource),
        attempt "mysql" = Except.ok ts1 →
        processTables file "mysql" ts1 = (rs1, some e) →
        attempt "postgresql" = Except.ok ts2 →
        processTables file "postgresql" ts2 = (rs2, none) →
        extractResourcesFile attempt file = (rs1 ++ rs2, true))
    ∧ ((extractResourcesFile demoDupAttempt "schema.sql").1.map (fun r => (r.name, r.dialect))
        = [("users", "mysql"), ("users", "postgresql")]) := by
  constructor
  · intro attempt file ts1 rs1 e ts2 rs2 h1 h2 h3 h4
    unfold extractResourcesFile dialects
    simp only [tryDialectsAux, h1, h2, h3, h4]
  · decide

/-- Witness for C10 at the concrete scenario: the same table emitted once
per dialect. -/
theorem C10_partial_retention_witness :
    extractResourcesFile demoDupAttempt "schema.sql"
      = ([usersResource "mysql"] ++ [usersResource "postgresql"], true) :=
  C10_partial_retention.1 demoDupAttempt "schema.sql" [usersTable, badTable]
    [usersResource "mysql"] undefinedTypeErr [usersTable] [usersResource "postgresql"]
    rfl (by decide) rfl (by decide)

/-! ### Type-normalizer claim theorems -/

theorem typeMapLookup_ne_array (c v : String) (h : typeMapLookup c = some v) :
    v ≠ "array" := by
  unfold typeMapLookup at h
  split at h <;> simp_all <;> subst h <;> decide

/-- Claim C6 counterexample: the code tests whether the cleaned text merely
contains the array marker anywhere, so `Map<string[], number>` — which is
no string-literal union, does not end in the marker and is no generic
array wrapper — still normalizes to kind `array`. -/
theorem C6_counterexample :
    (parseTypeScriptType "Map<string[], number>").type = "array"
    ∧ enumRegexTest (cleanTypeOf "Map<string[], number>") = false
    ∧ specArrayCondition (cleanTypeOf "Map<string[], number>") = false :=
  ⟨by decide, by decide, by decide⟩

/-- Claim C6 as amended: for every type text, the normalizer yields kind
`array` together with the description `Array of` the marker-stripped text
exactly when the cleaned text is not a string-literal union and either
contains `[]` anywhere or starts with `Array<`; in particular
`string[]` yields kind `array` with description `Array of string`.  (Kind
`array` alone can also arise from pass-through of the literal identifier
text `array`, which carries no description.) -/
theorem C6_array_rule :
    (∀ t : String,
      ((parseTypeScriptType t).type = "array"
        ∧ (parseTypeScriptType t).description
            = some ("Array of " ++ removeArrayMarkersStr (cleanTypeOf t)))
      ↔ (enumRegexTest (cleanTypeOf t) = false
          ∧ (containsSub (cleanTypeOf t) "[]"
              || startsWithChars (cleanTypeOf t) "Array<") = true))
    ∧ parseTypeScriptType "string[]"
        = { type := "array", description := some "Array of string", enumValues := none } := by
  have hsa : ("string" : String) ≠ "array" := by decide
  have hpa : ("promise" : String) ≠ "array" := by decide
  have hoa : ("object" : String) ≠ "array" := by decide
  constructor
  · intro t
    unfold parseTypeScriptType
    by_cases h1 : enumRegexTest (cleanTypeOf t) = true
    · rw [if_pos h1]
      constructor
      · rintro ⟨hc, -⟩
        exact absurd hc hsa
      · rintro ⟨hc, -⟩
        rw [h1] at hc
        exact Bool.noConfusion hc
    · rw [if_neg h1]
      have h1' : enumRegexTest (cleanTypeOf t) = false := by
        revert h1; cases enumRegexTest (cleanTypeOf t) <;> simp
      by_cases h2 : (containsSub (cleanTypeOf t) "[]"
          || startsWithChars (cleanTypeOf t) "Array<") = true
      · rw [if_pos h2]
        constructor
        · intro _
          exact ⟨h1', h2⟩
        · intro _
          exact ⟨rfl, rfl⟩
      · rw [if_neg h2]
        have hRHS : ¬(enumRegexTest (cleanTypeOf t) = false
            ∧ (containsSub (cleanTypeOf t) "[]"
                || startsWithChars (cleanTypeOf t) "Array<") = true) :=
          fun hc => h2 hc.2
        by_cases h3 : startsWithChars (cleanTypeOf t) "Promise<" = true
        · rw [if_pos h3]
          constructor
          · rintro ⟨hc, -⟩
            exact absurd hc hpa
          · intro hc
            exact absurd hc hRHS
        · rw [if_neg h3]
          by_cases h4 : ((cleanTypeOf t).toList.contains lbraceChar
              && (cleanTypeOf t).toList.contains rbraceChar) = true
          · rw [if_pos h4]
            constructor
            · rintro ⟨hc, -⟩
              exact absurd hc hoa
            · intro hc
              exact absurd hc hRHS
          · rw [if_neg h4]
            constructor
            · rintro ⟨hty, hdesc⟩
              cases hql : typeMapLookup (cleanTypeOf t) with
              | none =>
                rw [hql] at hdesc
                simp only [Option.getD_none] at hdesc
                rw [if_neg (fun hc => hc rfl)] at hdesc
                exact Option.noConfusion hdesc
              | some v =>
                rw [hql] at hty
                simp only [Option.getD_some] at hty
                exact absurd hty (typeMapLookup_ne_array (cleanTypeOf t) v hql)
            · intro hc
              exact absurd hc hRHS
  · decide

/-- Claim C7: the module variant of the normalizer has no guard for empty
type text and falls through to the pass-through rule, returning kind equal
to the empty string; the CLI variant carries the guard and returns kind
`any` with no description, as the claim states. -/
theorem C7_empty_type_text :
    parseTypeScriptType "" = { type := "", description := none, enumValues := none }
    ∧ parseTypeScriptTypeCli "" = { type := "any", description := none, enumValues := none } :=
  ⟨by decide, by decide⟩

/-- Claim C9: the normalizer is pure, and for every input whose normalized
kind is primitive, re-normalizing that kind is a no-op. -/
theorem C9_idempotent_primitive_kinds (t : String)
    (h : (parseTypeScriptType t).type
        ∈ (["string", "number", "boolean", "object", "null", "any"] : List String)) :
    (parseTypeScriptType ((parseTypeScriptType t).type)).type = (parseTypeScriptType t).type := by
  simp only [List.mem_cons, List.not_mem_nil, or_false] at h
  rcases h with h | h | h | h | h | h <;> rw [h] <;> decide

/-- Witness for C9 at `Date`, whose normalized kind is the primitive
`string`. -/
theorem C9_idempotent_witness :
    (parseTypeScriptType "Date").type
      ∈ (["string", "number", "boolean", "object", "null", "any"] : List String)
    ∧ (parseTypeScriptType ((parseTypeScriptType "Date").type)).type
        = (parseTypeScriptType "Date").type :=
  ⟨by decide, C9_idempotent_primitive_kinds "Date" (by decide)⟩

end MCPGen
